import Mathlib

/-!
# Verification of the nsqlookupd registration database and its front-ends

A shallow embedding of the in-memory registration store of the lookup
service (`RegistrationDB` and friends), together with the TCP command
handlers (REGISTER / UNREGISTER / PING) and the HTTP query handlers
(`doLookup`, `doNodes`, `doTombstoneTopicProducer`) that act on it.

Go pointer semantics matter here: registrations hold `*Producer` values,
and every `Producer` holds a `*PeerInfo`.  We model both heaps explicitly:
a `Mem` carries a list of `Producer` records (indexed by `Nat` references,
standing for `*Producer` pointers) and a list of `PeerInfo` records
(indexed by `Nat` references, standing for `*PeerInfo` pointers).
The registration map stores producer references; `Producer.peerInfo` is a
peer reference.  Dereferencing an invalid reference yields a default
record — such references never arise in states built by the operations
below, matching Go where dangling pointers cannot occur.

Times (`time.Time`, `time.Duration`, the atomic `lastUpdate` int64) are
modelled as `Int` nanosecond counts; `time.Now()` becomes an explicit
`now` argument threaded to the functions that call it.
-/

/-- `PeerInfo` from nsqlookupd's registration DB: a producer's
self-description.  `lastUpdate` is the atomically-accessed int64. -/
structure PeerInfo where
  lastUpdate : Int
  id : String
  remoteAddress : String
  hostname : String
  broadcastAddress : String
  tcpPort : Int
  httpPort : Int
  version : String
deriving Repr, DecidableEq

/-- `Producer`: wraps a reference to a `PeerInfo` (the Go field is a
`*PeerInfo`) plus the tombstone state. -/
structure Producer where
  peerInfo : Nat
  tombstoned : Bool
  tombstonedAt : Int
deriving Repr, DecidableEq

/-- The two heaps: `producers` holds the `Producer` records that
`*Producer` references point at, `peers` the `PeerInfo` records that
`*PeerInfo` references point at.  Allocation appends; references are
list indices. -/
structure Mem where
  producers : List Producer
  peers : List PeerInfo
deriving Repr, DecidableEq

/-- Zero `PeerInfo`, returned when dereferencing an invalid reference. -/
def defaultPeer : PeerInfo :=
  { lastUpdate := 0, id := "", remoteAddress := "", hostname := "",
    broadcastAddress := "", tcpPort := 0, httpPort := 0, version := "" }

/-- Dereference a producer reference. -/
def Mem.prodAt (m : Mem) (r : Nat) : Option Producer :=
  m.producers.get? r

/-- Dereference `r`'s `peerInfo` pointer (Go `p.peerInfo`, then `*`). -/
def Mem.peerOf (m : Mem) (r : Nat) : PeerInfo :=
  match m.prodAt r with
  | some p => (m.peers.get? p.peerInfo).getD defaultPeer
  | none => defaultPeer

/-- Go `p.peerInfo.id` for a producer reference `r`. -/
def Mem.pidOf (m : Mem) (r : Nat) : String :=
  (m.peerOf r).id

/-- Go `atomic.LoadInt64(&p.peerInfo.lastUpdate)`. -/
def Mem.lastUpdateOf (m : Mem) (r : Nat) : Int :=
  (m.peerOf r).lastUpdate

/-- Go `p.tombstoned`. -/
def Mem.tombstonedOf (m : Mem) (r : Nat) : Bool :=
  match m.prodAt r with
  | some p => p.tombstoned
  | none => false

/-- Go `p.tombstonedAt`. -/
def Mem.tombstonedAtOf (m : Mem) (r : Nat) : Int :=
  match m.prodAt r with
  | some p => p.tombstonedAt
  | none => 0

/-- The value of the `peerInfo` pointer itself, used for Go pointer
comparisons such as `tp.peerInfo == p.peerInfo` in `doNodes`. -/
def Mem.peerRefOf (m : Mem) (r : Nat) : Option Nat :=
  (m.prodAt r).map Producer.peerInfo

/-- `client.peerInfo.id` for a client identified with peer reference `ρ`. -/
def Mem.peerIdOf (m : Mem) (ρ : Nat) : String :=
  ((m.peers.get? ρ).getD defaultPeer).id

/-- Allocate a fresh `Producer` record on the heap (Go `&Producer{...}`);
returns the updated heap and the new reference. -/
def Mem.alloc (m : Mem) (p : Producer) : Mem × Nat :=
  ({ m with producers := m.producers ++ [p] }, m.producers.length)

/-- In-place update of a list cell, used for pointer-target mutation. -/
def updAt {α : Type} : List α → Nat → (α → α) → List α
  | [], _, _ => []
  | x :: rest, 0, f => f x :: rest
  | x :: rest, n + 1, f => x :: updAt rest n f

/-- `Producer.Tombstone()`: `p.tombstoned = true; p.tombstonedAt = time.Now()`,
a mutation through the `*Producer` reference `r`. -/
def Mem.tombstone (m : Mem) (r : Nat) (now : Int) : Mem :=
  let ps := updAt m.producers r
    (fun p => { p with tombstoned := true, tombstonedAt := now })
  { m with producers := ps }

/-- `Producer.IsTombstoned(lifetime)`:
`p.tombstoned && time.Now().Sub(p.tombstonedAt) < lifetime`. -/
def isTombstoned (m : Mem) (lifetime now : Int) (r : Nat) : Bool :=
  m.tombstonedOf r && decide (now - m.tombstonedAtOf r < lifetime)

/-- `Registration`: the `(Category, Key, SubKey)` triple. -/
structure Registration where
  category : String
  key : String
  subkey : String
deriving Repr, DecidableEq

/-- `RegistrationDB.registrationMap`: `map[Registration]Producers`,
modelled as an association list from keys to lists of producer
references (`Producers` is `[]*Producer` in Go). -/
abbrev RegistrationDB := List (Registration × List Nat)

/-- `NewRegistrationDB()` starts from the empty map. -/
def newRegistrationDB : RegistrationDB := []

/-- Go map read `r.registrationMap[k]` distinguishing presence. -/
def lookupReg : RegistrationDB → Registration → Option (List Nat)
  | [], _ => none
  | (k, ps) :: rest, q => if k = q then some ps else lookupReg rest q

/-- Go map write `r.registrationMap[k] = v`. -/
def setReg : RegistrationDB → Registration → List Nat → RegistrationDB
  | [], q, v => [(q, v)]
  | (k, ps) :: rest, q, v =>
    if k = q then (q, v) :: rest else (k, ps) :: setReg rest q v

/-- Go map delete `delete(r.registrationMap, k)`. -/
def eraseReg : RegistrationDB → Registration → RegistrationDB
  | [], _ => []
  | (k, ps) :: rest, q => if k = q then rest else (k, ps) :: eraseReg rest q

/-- A well-formed store state: association-list keys are distinct, as in
a Go map.  Every state reachable by the operations below is well-formed. -/
def WFdb (db : RegistrationDB) : Prop :=
  (db.map Prod.fst).Nodup

/-- `RegistrationDB.AddRegistration`: ensure the key exists, creating an
empty producer list if absent. -/
def addRegistration (db : RegistrationDB) (k : Registration) : RegistrationDB :=
  match lookupReg db k with
  | some _ => db
  | none => setReg db k []

/-- `RegistrationDB.AddProducer(k, p)`: refuse if a producer with the same
`peerInfo.id` is already listed under `k`, else append.  Returns whether
the producer was added. -/
def addProducer (m : Mem) (db : RegistrationDB) (k : Registration) (p : Nat) :
    Bool × RegistrationDB :=
  let producers := (lookupReg db k).getD []
  let found := producers.any (fun producer => m.pidOf producer == m.pidOf p)
  if found then (false, db) else (true, setReg db k (producers ++ [p]))

/-- The loop body of `RemoveProducer`: walk the list, dropping every
producer whose `peerInfo.id` equals `id`, recording whether any matched. -/
def cleanProducers (m : Mem) (id : String) : List Nat → Bool × List Nat
  | [] => (false, [])
  | producer :: rest =>
    let r := cleanProducers m id rest
    if m.pidOf producer ≠ id then (r.1, producer :: r.2) else (true, r.2)

/-- `RegistrationDB.RemoveProducer(k, id)`: `(removed, remaining)` plus
the updated store.  A missing key returns `(false, 0)` untouched; a
present key keeps its (possibly now empty) binding. -/
def removeProducer (m : Mem) (db : RegistrationDB) (k : Registration)
    (id : String) : (Bool × Nat) × RegistrationDB :=
  match lookupReg db k with
  | none => ((false, 0), db)
  | some producers =>
    let r := cleanProducers m id producers
    ((r.1, r.2.length), setReg db k r.2)

/-- `RegistrationDB.RemoveRegistration(k)`: delete the key outright. -/
def removeRegistration (db : RegistrationDB) (k : Registration) : RegistrationDB :=
  eraseReg db k

/-- `RegistrationDB.needFilter`. -/
def needFilter (key subkey : String) : Bool :=
  key == "*" || subkey == "*"

/-- `Registration.IsMatch(category, key, subkey)`. -/
def Registration.isMatch (k : Registration) (category key subkey : String) : Bool :=
  if category ≠ k.category then false
  else if key ≠ "*" && k.key ≠ key then false
  else if subkey ≠ "*" && k.subkey ≠ subkey then false
  else true

/-- `RegistrationDB.FindRegistrations`: exact lookup without a wildcard,
scan with one. -/
def findRegistrations (db : RegistrationDB) (category key subkey : String) :
    List Registration :=
  if !needFilter key subkey then
    match lookupReg db ⟨category, key, subkey⟩ with
    | some _ => [⟨category, key, subkey⟩]
    | none => []
  else
    (db.filter (fun e => e.1.isMatch category key subkey)).map Prod.fst

/-- The `found` check of the `FindProducers` scan: append the candidate
unless a producer with the same `peerInfo.id` is already in `results`. -/
def addUnique (m : Mem) (results : List Nat) (producer : Nat) : List Nat :=
  if results.any (fun p => m.pidOf producer == m.pidOf p) then results
  else results ++ [producer]

/-- Inner loop of the `FindProducers` scan over one registration's list. -/
def addUniqueAll (m : Mem) (results : List Nat) : List Nat → List Nat
  | [] => results
  | producer :: rest => addUniqueAll m (addUnique m results producer) rest

/-- Outer loop of the `FindProducers` scan over the whole map. -/
def findProducersScan (m : Mem) (category key subkey : String) :
    RegistrationDB → List Nat → List Nat
  | [], results => results
  | (k, producers) :: rest, results =>
    if k.isMatch category key subkey then
      findProducersScan m category key subkey rest (addUniqueAll m results producers)
    else
      findProducersScan m category key subkey rest results

/-- `RegistrationDB.FindProducers`: exact lookup without a wildcard
(missing key gives the empty list), deduplicating scan with one. -/
def findProducers (m : Mem) (db : RegistrationDB) (category key subkey : String) :
    List Nat :=
  if !needFilter key subkey then (lookupReg db ⟨category, key, subkey⟩).getD []
  else findProducersScan m category key subkey db []

/-- `RegistrationDB.LookupRegistrations(id)`: every key whose producer
list contains a producer with this `peerInfo.id`. -/
def lookupRegistrations (m : Mem) (db : RegistrationDB) (id : String) :
    List Registration :=
  (db.filter (fun e => e.2.any (fun p => m.pidOf p == id))).map Prod.fst

/-- `Registrations.Filter`. -/
def filterRegs (rr : List Registration) (category key subkey : String) :
    List Registration :=
  rr.filter (fun k => k.isMatch category key subkey)

/-- `Registrations.Keys()`. -/
def regKeys (rr : List Registration) : List String :=
  rr.map Registration.key

/-- `Registrations.SubKeys()`. -/
def regSubKeys (rr : List Registration) : List String :=
  rr.map Registration.subkey

/-- `Producers.FilterByActive(inactivityTimeout, tombstoneLifetime)`:
drop producers that have not pinged within the timeout or that are
currently tombstoned. -/
def filterByActive (m : Mem) (now inactivityTimeout tombstoneLifetime : Int) :
    List Nat → List Nat
  | [] => []
  | p :: rest =>
    if decide (now - m.lastUpdateOf p > inactivityTimeout)
        || isTombstoned m tombstoneLifetime now p then
      filterByActive m now inactivityTimeout tombstoneLifetime rest
    else
      p :: filterByActive m now inactivityTimeout tombstoneLifetime rest

/-- `Producers.PeerInfo()`: project to the referenced `PeerInfo` records
(the Go version returns the `*PeerInfo` pointers; serialization
dereferences them). -/
def producersPeerInfo (m : Mem) (pp : List Nat) : List PeerInfo :=
  pp.map (fun p => m.peerOf p)

/-!
## TCP protocol layer

`ClientV1.peerInfo` is a `*PeerInfo` that is `nil` until IDENTIFY
succeeds; we model it as an `Option Nat` peer reference.  Command
handlers return a `CmdRes` (the response payload, or a fatal protocol
error that makes `IOLoop` close the connection) together with the new
state.  `St` bundles the registration map with the heaps.
-/

/-- The registration map plus the two heaps it points into. -/
structure St where
  db : RegistrationDB
  mem : Mem
deriving Repr, DecidableEq

/-- Outcome of one TCP command: a response payload, or a
`protocol.FatalClientErr` with its code and message. -/
inductive CmdRes where
  | ok (response : String)
  | fatal (code : String) (msg : String)
deriving Repr, DecidableEq

deriving instance DecidableEq for Except

/-- Go `strings.HasSuffix`, computed over the character lists so that
concrete instances evaluate inside the kernel. -/
def hasSuffix (s suffix : String) : Bool :=
  suffix.data.isSuffixOf s.data

/-- Modelled from the spec: `protocol.IsValidTopicName` lives in the
internal protocol package, which is not part of the sources here.  Spec
§6: a topic/channel name is "a non-empty string of length ≤ a fixed
limit (typically 64), matching `[.a-zA-Z0-9_-]+`". -/
def isValidNameChar (c : Char) : Bool :=
  c = '.' || c.isAlpha || c.isDigit || c = '_' || c = '-'

/-- Modelled from the spec: `protocol.IsValidTopicName` (see
`isValidNameChar`). -/
def isValidTopicName (s : String) : Bool :=
  s ≠ "" && s.length ≤ 64 && s.data.all isValidNameChar

/-- Modelled from the spec: `protocol.IsValidChannelName`, "with
channels additionally permitting an `#ephemeral` suffix" (spec §6). -/
def isValidChannelName (s : String) : Bool :=
  let base := if hasSuffix s "#ephemeral" then String.mk (s.data.take (s.data.length - 10)) else s
  base ≠ "" && s.length ≤ 64 && base.data.all isValidNameChar

/-- `getTopicChan(command, params)`: extract and validate the topic name
and the optional channel name from a command's parameters. -/
def getTopicChan (command : String) (params : List String) :
    Except (String × String) (String × String) :=
  match params with
  | [] => .error ("E_INVALID", command ++ " insufficient number of params")
  | topicName :: rest =>
    let channelName := match rest with
      | [] => ""
      | c :: _ => c
    if !isValidTopicName topicName then
      .error ("E_BAD_TOPIC", command ++ " topic name '" ++ topicName ++ "' is not valid")
    else if channelName ≠ "" && !isValidChannelName channelName then
      .error ("E_BAD_CHANNEL", command ++ " channel name '" ++ channelName ++ "' is not valid")
    else
      .ok (topicName, channelName)

/-- `LookupProtocolV1.REGISTER`: requires IDENTIFY; validates the names;
allocates a fresh `&Producer{peerInfo: client.peerInfo}` for the channel
registration (when a channel was given) and another one for the topic
registration. -/
def REGISTER (st : St) (clientPeer : Option Nat) (params : List String) :
    CmdRes × St :=
  match clientPeer with
  | none => (.fatal "E_INVALID" "client must IDENTIFY", st)
  | some peerRef =>
    match getTopicChan "REGISTER" params with
    | .error e => (.fatal e.1 e.2, st)
    | .ok tc =>
      let topic := tc.1
      let channel := tc.2
      let st1 :=
        if channel ≠ "" then
          let a := st.mem.alloc { peerInfo := peerRef, tombstoned := false, tombstonedAt := 0 }
          let r := addProducer a.1 st.db ⟨"channel", topic, channel⟩ a.2
          St.mk r.2 a.1
        else st
      let a := st1.mem.alloc { peerInfo := peerRef, tombstoned := false, tombstonedAt := 0 }
      let r := addProducer a.1 st1.db ⟨"topic", topic, ""⟩ a.2
      (.ok "OK", St.mk r.2 a.1)

/-- `LookupProtocolV1.UNREGISTER`: requires IDENTIFY; with a channel,
remove this client's producer from the channel registration and delete
the registration itself when it is `#ephemeral`-suffixed and emptied;
without one, strip the client from every channel registration of the
topic and from the topic registration. -/
def UNREGISTER (st : St) (clientPeer : Option Nat) (params : List String) :
    CmdRes × St :=
  match clientPeer with
  | none => (.fatal "E_INVALID" "client must IDENTIFY", st)
  | some peerRef =>
    match getTopicChan "UNREGISTER" params with
    | .error e => (.fatal e.1 e.2, st)
    | .ok tc =>
      let topic := tc.1
      let channel := tc.2
      let id := st.mem.peerIdOf peerRef
      if channel ≠ "" then
        let key : Registration := ⟨"channel", topic, channel⟩
        let r := removeProducer st.mem st.db key id
        let left := r.1.2
        let db2 :=
          if left == 0 && hasSuffix channel "#ephemeral" then removeRegistration r.2 key
          else r.2
        (.ok "OK", St.mk db2 st.mem)
      else
        let registrations := findRegistrations st.db "channel" topic "*"
        let db1 := registrations.foldl
          (fun db reg => (removeProducer st.mem db reg id).2) st.db
        let db2 := (removeProducer st.mem db1 ⟨"topic", topic, ""⟩ id).2
        (.ok "OK", St.mk db2 st.mem)

/-- `LookupProtocolV1.PING`: refresh `lastUpdate` through the client's
`*PeerInfo` when the connection has IDENTIFYed; always respond `OK`. -/
def PING (st : St) (clientPeer : Option Nat) (now : Int) : CmdRes × St :=
  match clientPeer with
  | some peerRef =>
    let peers := updAt st.mem.peers peerRef (fun pi => { pi with lastUpdate := now })
    (.ok "OK", St.mk st.db { st.mem with peers := peers })
  | none => (.ok "OK", st)

/-!
## HTTP query/admin layer
-/

/-- `http_api.Err`: an HTTP error code plus its text. -/
structure ApiErr where
  code : Nat
  text : String
deriving Repr, DecidableEq

/-- The `/lookup` 200 payload: channel names and active producers. -/
structure LookupResp where
  channels : List String
  producers : List PeerInfo
deriving Repr, DecidableEq

/-- `doLookup`: 404 when `FindRegistrations("topic", T, "")` comes back
empty, otherwise the channels of the topic and its active producers. -/
def doLookup (st : St) (topicName : String)
    (now inactiveProducerTimeout tombstoneLifetime : Int) :
    Except ApiErr LookupResp :=
  let registration := findRegistrations st.db "topic" topicName ""
  if registration.length == 0 then
    .error ⟨404, "TOPIC_NOT_FOUND"⟩
  else
    let channels := regSubKeys (findRegistrations st.db "channel" topicName "*")
    let producers := findProducers st.mem st.db "topic" topicName ""
    let active := filterByActive st.mem now inactiveProducerTimeout tombstoneLifetime producers
    .ok ⟨channels, producersPeerInfo st.mem active⟩

/-- `doTombstoneTopicProducer`: tombstone, in place, every producer of
the `("topic", T, "")` registration whose `broadcastAddress:httpPort`
string equals `node`. -/
def doTombstoneTopicProducer (st : St) (topicName node : String) (now : Int) : St :=
  let producers := findProducers st.mem st.db "topic" topicName ""
  producers.foldl
    (fun acc p =>
      let pi := acc.mem.peerOf p
      let thisNode := pi.broadcastAddress ++ ":" ++ toString pi.httpPort
      if thisNode == node then St.mk acc.db (acc.mem.tombstone p now) else acc)
    st

/-- One entry of the `/nodes` response. -/
structure NodeInfo where
  remoteAddress : String
  hostname : String
  broadcastAddress : String
  tcpPort : Int
  httpPort : Int
  version : String
  tombstones : List Bool
  topics : List String
deriving Repr, DecidableEq

/-- The per-producer tombstone array of `/nodes`, following the original
per-producer code that the source keeps in comments inside `doNodes`:
for each hosted topic, scan that topic's producers and record the
tombstone state of the one whose `peerInfo` pointer equals this
producer's. -/
def nodeTombstones (st : St) (tombstoneLifetime now : Int) (p : Nat)
    (topics : List String) : List Bool :=
  topics.map (fun t =>
    (findProducers st.mem st.db "topic" t "").foldl
      (fun acc tp =>
        if st.mem.peerRefOf tp = st.mem.peerRefOf p then
          isTombstoned st.mem tombstoneLifetime now tp
        else acc)
      false)

/-- `doNodes` as specified (and as the commented-out original code in the
source reads): `topics` and `tombstones` rebuilt for each producer. -/
def doNodes (st : St) (inactiveProducerTimeout tombstoneLifetime now : Int) :
    List NodeInfo :=
  let producers := filterByActive st.mem now inactiveProducerTimeout 0
    (findProducers st.mem st.db "client" "" "")
  producers.map (fun p =>
    let topics := regKeys
      (filterRegs (lookupRegistrations st.mem st.db (st.mem.pidOf p)) "topic" "*" "")
    { remoteAddress := (st.mem.peerOf p).remoteAddress,
      hostname := (st.mem.peerOf p).hostname,
      broadcastAddress := (st.mem.peerOf p).broadcastAddress,
      tcpPort := (st.mem.peerOf p).tcpPort,
      httpPort := (st.mem.peerOf p).httpPort,
      version := (st.mem.peerOf p).version,
      tombstones := nodeTombstones st tombstoneLifetime now p topics,
      topics := topics })

/-- `doNodes` as the source actually writes it: `topics`, `tombstones`
and `topicProducers` hoisted above the per-producer loop.  The hoisted
`topics` line reads the loop variable `p` outside the loop (the code
does not even compile, and `topicProducers` is also misspelled there),
so the reference used for that line is a parameter `pchoice`; every
choice is shown wrong below.  All `node` entries share the single
`tombstones` slice, whose cells are overwritten across iterations of the
outer loop, and the inner write scans the concatenated producer list of
all hoisted topics. -/
def doNodesHoisted (st : St) (inactiveProducerTimeout tombstoneLifetime now : Int)
    (pchoice : Nat) : List NodeInfo :=
  let producers := filterByActive st.mem now inactiveProducerTimeout 0
    (findProducers st.mem st.db "client" "" "")
  let topics := regKeys
    (filterRegs (lookupRegistrations st.mem st.db (st.mem.pidOf pchoice)) "topic" "*" "")
  let topicProducers := topics.foldl
    (fun acc t => acc ++ findProducers st.mem st.db "topic" t "") []
  let finalTombstones := producers.foldl
    (fun ts p => ts.map (fun b =>
      topicProducers.foldl
        (fun acc tp =>
          if st.mem.peerRefOf tp = st.mem.peerRefOf p then
            isTombstoned st.mem tombstoneLifetime now tp
          else acc)
        b))
    (topics.map (fun _ => false))
  producers.map (fun p =>
    { remoteAddress := (st.mem.peerOf p).remoteAddress,
      hostname := (st.mem.peerOf p).hostname,
      broadcastAddress := (st.mem.peerOf p).broadcastAddress,
      tcpPort := (st.mem.peerOf p).tcpPort,
      httpPort := (st.mem.peerOf p).httpPort,
      version := (st.mem.peerOf p).version,
      tombstones := finalTombstones,
      topics := topics })

/-!
## Concrete states used by counterexamples and witnesses
-/

/-- A peer as sent by a producer's IDENTIFY. -/
def peerA : PeerInfo :=
  { lastUpdate := 0, id := "1.1.1.1:1", remoteAddress := "1.1.1.1:1", hostname := "h1",
    broadcastAddress := "b1", tcpPort := 4150, httpPort := 4151, version := "v" }

/-- A second peer, for multi-producer scenarios. -/
def peerB : PeerInfo :=
  { lastUpdate := 0, id := "2.2.2.2:2", remoteAddress := "2.2.2.2:2", hostname := "h2",
    broadcastAddress := "b2", tcpPort := 4150, httpPort := 4151, version := "v" }

/-- A connection that has IDENTIFYed as `peerA` (peer reference 0) but
has not registered anything yet. -/
def exSt0 : St := St.mk [] (Mem.mk [] [peerA])

/-- `exSt0` after `REGISTER t c`: the channel registration holds the
freshly allocated producer 0, the topic registration the freshly
allocated producer 1; both point at peer 0. -/
def exSt1 : St := (REGISTER exSt0 (some 0) ["t", "c"]).2

/-- `exSt1` after `POST /topic/tombstone?topic=t&node=b1:4151` at time 7:
only the producer reachable from the `("topic","t","")` registration is
mutated. -/
def exSt2 : St := doTombstoneTopicProducer exSt1 "t" "b1:4151" 7

/-- State for the `/nodes` scenarios: two IDENTIFYed producers, peer 0
hosting topic `ta` (its topic producer, reference 2, tombstoned at time
5) and peer 1 hosting topic `tb` (its topic producer, reference 3, not
tombstoned). -/
def exNodesSt : St :=
  St.mk
    [ (⟨"client", "", ""⟩, [0, 1]),
      (⟨"topic", "ta", ""⟩, [2]),
      (⟨"topic", "tb", ""⟩, [3]) ]
    (Mem.mk
      [ Producer.mk 0 false 0, Producer.mk 1 false 0,
        Producer.mk 0 true 5, Producer.mk 1 false 0 ]
      [peerA, peerB])

/-- A store that knows topic `a` (with no producers) and nothing else. -/
def exLookupSt : St := St.mk [(⟨"topic", "a", ""⟩, [])] (Mem.mk [] [])

/-- An `#ephemeral` channel registration with an empty producer list, as
created by `POST /channel/create`, and one identified client (peer 0)
that never registered as its producer. -/
def exEphSt : St := St.mk [(⟨"channel", "t", "c#ephemeral"⟩, [])] (Mem.mk [] [peerA])

/-!
## Claim theorems
-/

/-- **C10.** For a connection that has not completed IDENTIFY
(`clientPeer = none`), PING replies `OK` without touching the
registration map or either heap — in particular every producer's
`lastUpdate` is unchanged — while REGISTER and UNREGISTER on the same
unidentified connection are fatal `E_INVALID` errors. -/
theorem ping_before_identify_ok_and_frame (st : St) (params : List String) (now : Int) :
    PING st none now = (.ok "OK", st) ∧
    REGISTER st none params = (.fatal "E_INVALID" "client must IDENTIFY", st) ∧
    UNREGISTER st none params = (.fatal "E_INVALID" "client must IDENTIFY", st) :=
  ⟨rfl, rfl, rfl⟩

/-- **C2, counterexample.** One connection (peer 0) registers topic `t`
with channel `c`; the channel registration and the topic registration
hold *different* `Producer` records (references 0 and 1).  Tombstoning
through the producer found under `("topic","t","")` — exactly what the
`/topic/tombstone` handler does — sets `tombstoned` on producer 1 but is
*not* visible on producer 0, the same connection's producer under
`("channel","t","c")`.  This refutes the claim that all Registrations of
one connection share a single `Producer` instance. -/
theorem tombstone_not_visible_across_registrations :
    lookupReg exSt2.db ⟨"channel", "t", "c"⟩ = some [0] ∧
    lookupReg exSt2.db ⟨"topic", "t", ""⟩ = some [1] ∧
    exSt2.mem.pidOf 0 = exSt2.mem.pidOf 1 ∧
    exSt2.mem.tombstonedOf 1 = true ∧
    exSt2.mem.tombstonedOf 0 = false := by decide

/-- **C1.** `/nodes` per-producer data as specified versus as coded.  In
`exNodesSt`, the per-producer computation (kept in comments in the
source) reports peer 0 hosting `ta` with tombstone `true` and peer 1
hosting `tb` with tombstone `false`.  The code as written hoists
`topics`, `tombstones` and `topicProducers` above the loop (even reading
the loop variable there), so whichever producer reference the hoisted
lookup uses, every node entry shares one `topics` list and one
`tombstones` array, and at least one producer's row is wrong. -/
theorem doNodes_tombstones_shared_bug :
    (doNodes exNodesSt 100 100 10).map (fun n => (n.topics, n.tombstones)) =
      [(["ta"], [true]), (["tb"], [false])] ∧
    (doNodesHoisted exNodesSt 100 100 10 0).map (fun n => (n.topics, n.tombstones)) =
      [(["ta"], [true]), (["ta"], [true])] ∧
    (doNodesHoisted exNodesSt 100 100 10 1).map (fun n => (n.topics, n.tombstones)) =
      [(["tb"], [false]), (["tb"], [false])] ∧
    doNodesHoisted exNodesSt 100 100 10 0 ≠ doNodes exNodesSt 100 100 10 ∧
    doNodesHoisted exNodesSt 100 100 10 1 ≠ doNodes exNodesSt 100 100 10 := by decide

/-- **C8, counterexample.** With the store `{("topic","a","") ↦ []}` and
the query `topic=*`, `doLookup` answers 200 (here with no channels and
no producers) even though no `("topic","*","")` registration exists:
for `T = "*"` the claimed "404 iff the key `("topic",T,"")` is absent"
fails, because the lookup treats `*` as a wildcard. -/
theorem doLookup_wildcard_topic_counterexample :
    doLookup exLookupSt "*" 0 100 100 = .ok ⟨[], []⟩ ∧
    lookupReg exLookupSt.db ⟨"topic", "*", ""⟩ = none := by decide

/-!
## Association-list and loop lemmas
-/

/-- Reading back a key just written. -/
theorem lookupReg_setReg_self (db : RegistrationDB) (k : Registration) (v : List Nat) :
    lookupReg (setReg db k v) k = some v := by
  induction db with
  | nil => simp [setReg, lookupReg]
  | cons e rest ih =>
    obtain ⟨a, ps⟩ := e
    by_cases h : a = k
    · simp [setReg, lookupReg, h]
    · simp [setReg, lookupReg, h, ih]

/-- Writing one key leaves every other key's binding alone. -/
theorem lookupReg_setReg_ne (db : RegistrationDB) (k k' : Registration) (v : List Nat)
    (h : k' ≠ k) : lookupReg (setReg db k v) k' = lookupReg db k' := by
  have hkk : ¬(k = k') := fun hh => h hh.symm
  induction db with
  | nil =>
    simp only [setReg, lookupReg]
    rw [if_neg hkk]
  | cons e rest ih =>
    obtain ⟨a, ps⟩ := e
    by_cases ha : a = k
    · subst ha
      simp [setReg, lookupReg, hkk]
    · simp [setReg, lookupReg, ha, ih]

/-- A key that is not among the association-list keys reads as absent. -/
theorem lookupReg_eq_none_of_not_mem (db : RegistrationDB) (k : Registration)
    (h : k ∉ db.map Prod.fst) : lookupReg db k = none := by
  induction db with
  | nil => rfl
  | cons e rest ih =>
    obtain ⟨a, ps⟩ := e
    simp only [List.map_cons, List.mem_cons] at h
    push_neg at h
    simp [lookupReg, Ne.symm h.1, ih h.2]

/-- Deleting a key from a well-formed store makes it absent. -/
theorem lookupReg_eraseReg_self (db : RegistrationDB) (k : Registration)
    (hwf : WFdb db) : lookupReg (eraseReg db k) k = none := by
  induction db with
  | nil => rfl
  | cons e rest ih =>
    obtain ⟨a, ps⟩ := e
    unfold WFdb at hwf
    simp only [List.map_cons, List.nodup_cons] at hwf
    by_cases h : a = k
    · subst h
      simpa [eraseReg] using lookupReg_eq_none_of_not_mem rest a hwf.1
    · simp [eraseReg, lookupReg, h, ih hwf.2]

/-- Writing a key preserves well-formedness of the store. -/
theorem WFdb_setReg (db : RegistrationDB) (k : Registration) (v : List Nat)
    (hwf : WFdb db) : WFdb (setReg db k v) := by
  induction db with
  | nil => simp [setReg, WFdb]
  | cons e rest ih =>
    obtain ⟨a, ps⟩ := e
    unfold WFdb at hwf ⊢
    simp only [List.map_cons, List.nodup_cons] at hwf
    by_cases h : a = k
    · subst h
      simpa [setReg] using hwf
    · have hkeys : (setReg rest k v).map Prod.fst = rest.map Prod.fst ∨
          (setReg rest k v).map Prod.fst = rest.map Prod.fst ++ [k] := by
        clear ih hwf
        induction rest with
        | nil => simp [setReg]
        | cons e' rest' ih' =>
          obtain ⟨a', ps'⟩ := e'
          by_cases h' : a' = k
          · simp [setReg, h']
          · rcases ih' with h1 | h1 <;> simp [setReg, h', h1]
      simp only [setReg, if_neg h, List.map_cons, List.nodup_cons]
      refine ⟨?_, ih hwf.2⟩
      rcases hkeys with h1 | h1 <;> rw [h1]
      · exact hwf.1
      · simp only [List.mem_append, List.mem_singleton]
        rintro (hmem | rfl)
        · exact hwf.1 hmem
        · exact h rfl

/-- The `RemoveProducer` loop computes "some producer matched" and "the
original list with every match dropped". -/
theorem cleanProducers_eq (m : Mem) (id : String) (ps : List Nat) :
    cleanProducers m id ps =
      (ps.any (fun q => m.pidOf q == id), ps.filter (fun q => !(m.pidOf q == id))) := by
  induction ps with
  | nil => rfl
  | cons q rest ih =>
    by_cases h : m.pidOf q = id
    · simp [cleanProducers, ih, h]
    · simp [cleanProducers, ih, h]

/-- **C4.** `RemoveProducer(k, id)`: a missing key yields `(false, 0)`
and an untouched store; a present key has its list replaced by the same
list minus every producer whose id matches, the returned flag is "at
least one was removed", the returned count is the new length, `k` stays
a key of the map (even when now empty), and every other key's binding is
untouched. -/
theorem removeProducer_spec (m : Mem) (db : RegistrationDB) (k : Registration) (id : String) :
    (lookupReg db k = none → removeProducer m db k id = ((false, 0), db)) ∧
    (∀ ps, lookupReg db k = some ps →
      (removeProducer m db k id).1.1 = ps.any (fun q => m.pidOf q == id) ∧
      (removeProducer m db k id).1.2 = (ps.filter (fun q => !(m.pidOf q == id))).length ∧
      lookupReg (removeProducer m db k id).2 k =
        some (ps.filter (fun q => !(m.pidOf q == id))) ∧
      (∀ k', k' ≠ k → lookupReg (removeProducer m db k id).2 k' = lookupReg db k')) := by
  constructor
  · intro h
    simp [removeProducer, h]
  · intro ps h
    refine ⟨?_, ?_, ?_, ?_⟩
    · simp [removeProducer, h, cleanProducers_eq]
    · simp [removeProducer, h, cleanProducers_eq]
    · simp only [removeProducer, h, cleanProducers_eq]
      exact lookupReg_setReg_self db k _
    · intro k' hk'
      simp only [removeProducer, h, cleanProducers_eq]
      exact lookupReg_setReg_ne db k k' _ hk'

/-- Witness for `removeProducer_spec`: removing id `1.1.1.1:1` from a
one-producer channel registration reports `removed = true` with zero
producers remaining. -/
theorem removeProducer_spec_witness :
    (removeProducer (Mem.mk [Producer.mk 0 false 0] [peerA])
      [(⟨"channel", "t", "c"⟩, [0])] ⟨"channel", "t", "c"⟩ "1.1.1.1:1").1.1 = true ∧
    (removeProducer (Mem.mk [Producer.mk 0 false 0] [peerA])
      [(⟨"channel", "t", "c"⟩, [0])] ⟨"channel", "t", "c"⟩ "1.1.1.1:1").1.2 = 0 := by
  have h := (removeProducer_spec (Mem.mk [Producer.mk 0 false 0] [peerA])
      [(⟨"channel", "t", "c"⟩, [0])] ⟨"channel", "t", "c"⟩ "1.1.1.1:1").2 [0] (by decide)
  refine ⟨?_, ?_⟩
  · rw [h.1]; decide
  · rw [h.2.1]; decide

/-- `FilterByActive` is the filter by the negation of its skip guard. -/
theorem filterByActive_eq_filter_not (m : Mem) (now it tl : Int) (pp : List Nat) :
    filterByActive m now it tl pp = pp.filter (fun p =>
      !(decide (now - m.lastUpdateOf p > it) || isTombstoned m tl now p)) := by
  induction pp with
  | nil => rfl
  | cons p rest ih =>
    simp only [filterByActive, List.filter_cons]
    cases hg : (decide (now - m.lastUpdateOf p > it) || isTombstoned m tl now p) <;>
      simp [hg, ih]

/-- The negated skip guard of `FilterByActive` says: within the
inactivity window and not currently tombstoned. -/
theorem guard_eq_pred (m : Mem) (now it tl : Int) (p : Nat) :
    (!(decide (now - m.lastUpdateOf p > it) || isTombstoned m tl now p)) =
    (decide (now - m.lastUpdateOf p ≤ it) &&
      !(m.tombstonedOf p && decide (now - m.tombstonedAtOf p < tl))) := by
  unfold isTombstoned
  by_cases h : now - m.lastUpdateOf p ≤ it
  · simp [h, not_lt.mpr h]
  · simp [h, lt_of_not_ge h]

/-- `FilterByActive` keeps exactly the producers that are within the
inactivity window and not currently tombstoned. -/
theorem filterByActive_eq_filter (m : Mem) (now it tl : Int) (pp : List Nat) :
    filterByActive m now it tl pp = pp.filter (fun p =>
      decide (now - m.lastUpdateOf p ≤ it) &&
      !(m.tombstonedOf p && decide (now - m.tombstonedAtOf p < tl))) := by
  rw [filterByActive_eq_filter_not]
  congr 1
  funext p
  exact guard_eq_pred m now it tl p

/-- **C5.** `FilterByActive(inactivityTimeout, tombstoneLifetime)`
returns exactly the producers with `now - last_update ≤ inactivityTimeout`
that are not currently tombstoned, where currently tombstoned means
`tombstoned = true` and `now - tombstoned_at < tombstoneLifetime`; and
with `tombstoneLifetime = 0` (and tombstone timestamps not in the
future, as `Tombstone()` guarantees) no producer is excluded for being
tombstoned. -/
theorem filterByActive_spec (m : Mem) (now it tl : Int) (pp : List Nat) :
    (filterByActive m now it tl pp = pp.filter (fun p =>
      decide (now - m.lastUpdateOf p ≤ it) &&
      !(m.tombstonedOf p && decide (now - m.tombstonedAtOf p < tl)))) ∧
    (tl = 0 → (∀ p ∈ pp, m.tombstonedAtOf p ≤ now) →
      filterByActive m now it tl pp =
        pp.filter (fun p => decide (now - m.lastUpdateOf p ≤ it))) := by
  refine ⟨filterByActive_eq_filter m now it tl pp, ?_⟩
  intro h0 hat
  rw [filterByActive_eq_filter]
  apply List.filter_congr
  intro p hp
  have : ¬(now - m.tombstonedAtOf p < tl) := by
    subst h0
    have := hat p hp
    omega
  simp [this]

/-- Witness for `filterByActive_spec`: with lifetime `0`, a producer
tombstoned at time 5 is still listed at time 10. -/
theorem filterByActive_spec_witness :
    filterByActive (Mem.mk [Producer.mk 0 true 5] [peerA]) 10 100 0 [0] = [0] := by
  have h := (filterByActive_spec (Mem.mk [Producer.mk 0 true 5] [peerA]) 10 100 0 [0]).2
    rfl (by decide)
  rw [h]; decide

/-!
## C3: id-uniqueness under AddProducer / RemoveProducer sequences
-/

/-- One store mutation of the kind the claim quantifies over. -/
inductive StoreOp where
  | addP (k : Registration) (p : Nat)
  | removeP (k : Registration) (id : String)

/-- Apply one mutation (ignoring the returned flags). -/
def applyOp (m : Mem) (db : RegistrationDB) : StoreOp → RegistrationDB
  | .addP k p => (addProducer m db k p).2
  | .removeP k id => (removeProducer m db k id).2

/-- Apply a sequence of mutations in order. -/
def applyOps (m : Mem) (db : RegistrationDB) : List StoreOp → RegistrationDB
  | [] => db
  | op :: rest => applyOps m (applyOp m db op) rest

/-- Every registration's producer list has pairwise distinct ids. -/
def IdsNodup (m : Mem) (db : RegistrationDB) : Prop :=
  ∀ e ∈ db, (e.2.map m.pidOf).Nodup

/-- A successful lookup is a binding of the association list. -/
theorem lookupReg_mem (db : RegistrationDB) (k : Registration) (ps : List Nat)
    (h : lookupReg db k = some ps) : (k, ps) ∈ db := by
  induction db with
  | nil => cases h
  | cons e rest ih =>
    obtain ⟨a, qs⟩ := e
    by_cases ha : a = k
    · subst ha
      simp [lookupReg] at h
      subst h
      exact List.mem_cons_self _ _
    · simp only [lookupReg, if_neg ha] at h
      exact List.mem_cons_of_mem _ (ih h)

/-- Bindings after a write: the written one, or an old one. -/
theorem mem_setReg (db : RegistrationDB) (k : Registration) (v : List Nat)
    (e : Registration × List Nat) (h : e ∈ setReg db k v) : e = (k, v) ∨ e ∈ db := by
  induction db with
  | nil => simpa [setReg] using h
  | cons e' rest ih =>
    obtain ⟨a, qs⟩ := e'
    by_cases ha : a = k
    · subst ha
      simp only [setReg, if_pos] at h
      rcases List.mem_cons.mp h with h | h
      · exact .inl h
      · exact .inr (List.mem_cons_of_mem _ h)
    · simp only [setReg, if_neg ha, List.mem_cons] at h
      rcases h with h | h
      · exact .inr (h ▸ List.mem_cons_self _ _)
      · rcases ih h with h1 | h1
        · exact .inl h1
        · exact .inr (List.mem_cons_of_mem _ h1)

/-- `AddProducer` preserves per-registration id-uniqueness: it appends
only after checking that no producer under the key has the same id. -/
theorem addProducer_idsNodup (m : Mem) (db : RegistrationDB) (k : Registration)
    (p : Nat) (hinv : IdsNodup m db) : IdsNodup m (addProducer m db k p).2 := by
  unfold addProducer
  set producers := (lookupReg db k).getD [] with hprod
  cases hfound : producers.any (fun producer => m.pidOf producer == m.pidOf p) with
  | true => simpa [hfound] using hinv
  | false =>
    simp only [hfound, Bool.false_eq_true, if_neg, ite_false]
    intro e he
    rcases mem_setReg db k (producers ++ [p]) e he with h | h
    · subst h
      have hnodup : (producers.map m.pidOf).Nodup := by
        rcases hlk : lookupReg db k with _ | ps
        · simp [hprod, hlk]
        · have := hinv (k, ps) (lookupReg_mem db k ps hlk)
          simpa [hprod, hlk] using this
      have hnotin : m.pidOf p ∉ producers.map m.pidOf := by
        intro hmem
        rcases List.mem_map.mp hmem with ⟨q, hq, hpid⟩
        have := List.any_eq_false.mp hfound q hq
        simp only [beq_iff_eq] at this
        exact this hpid
      simp only [List.map_append, List.map_cons, List.map_nil]
      exact List.Nodup.append hnodup (List.nodup_singleton _)
        (by simpa [List.disjoint_singleton] using hnotin)
    · exact hinv e h

/-- `RemoveProducer` preserves per-registration id-uniqueness: the
cleaned list is a sublist of the old one. -/
theorem removeProducer_idsNodup (m : Mem) (db : RegistrationDB) (k : Registration)
    (id : String) (hinv : IdsNodup m db) : IdsNodup m (removeProducer m db k id).2 := by
  unfold removeProducer
  rcases hlk : lookupReg db k with _ | ps
  · simpa using hinv
  · simp only [cleanProducers_eq]
    intro e he
    rcases mem_setReg db k _ e he with h | h
    · subst h
      have hnodup : (ps.map m.pidOf).Nodup := hinv (k, ps) (lookupReg_mem db k ps hlk)
      exact hnodup.sublist (List.Sublist.map m.pidOf (List.filter_sublist ps))
    · exact hinv e h

/-- A whole sequence of mutations preserves id-uniqueness. -/
theorem applyOps_idsNodup (m : Mem) (db : RegistrationDB) (ops : List StoreOp)
    (hinv : IdsNodup m db) : IdsNodup m (applyOps m db ops) := by
  induction ops generalizing db with
  | nil => exact hinv
  | cons op rest ih =>
    refine ih (applyOp m db op) ?_
    cases op with
    | addP k p => exact addProducer_idsNodup m db k p hinv
    | removeP k id => exact removeProducer_idsNodup m db k id hinv

/-- **C3.** Starting from the empty store, after any finite sequence of
`AddProducer(k, p)` / `RemoveProducer(k, id)` operations, no
registration's producer list contains two producers with the same id. -/
theorem store_ids_unique (m : Mem) (ops : List StoreOp) :
    ∀ e ∈ applyOps m newRegistrationDB ops, (e.2.map m.pidOf).Nodup :=
  applyOps_idsNodup m newRegistrationDB ops (fun e he => absurd he (List.not_mem_nil e))

/-- Witness for `store_ids_unique`: two adds of distinct heap cells that
carry the same id leave a single-producer list of distinct ids. -/
theorem store_ids_unique_witness :
    ((([0] : List Nat)).map ((Mem.mk [Producer.mk 0 false 0, Producer.mk 0 false 0]
      [peerA]).pidOf)).Nodup :=
  store_ids_unique (Mem.mk [Producer.mk 0 false 0, Producer.mk 0 false 0] [peerA])
    [.addP ⟨"topic", "t", ""⟩ 0, .addP ⟨"topic", "t", ""⟩ 1]
    (⟨"topic", "t", ""⟩, [0]) (by decide)

/-!
## C6: FindProducers
-/

/-- `addUnique` only ever adds the candidate itself. -/
theorem mem_addUnique (m : Mem) (acc : List Nat) (p r : Nat)
    (h : r ∈ addUnique m acc p) : r ∈ acc ∨ r = p := by
  unfold addUnique at h
  split at h
  · exact .inl h
  · rcases List.mem_append.mp h with h1 | h1
    · exact .inl h1
    · exact .inr (List.mem_singleton.mp h1)

/-- `addUnique` keeps everything already accumulated. -/
theorem subset_addUnique (m : Mem) (acc : List Nat) (p : Nat) :
    ∀ r ∈ acc, r ∈ addUnique m acc p := by
  intro r hr
  unfold addUnique
  split
  · exact hr
  · exact List.mem_append_left _ hr

/-- After `addUnique`, some accumulated producer carries the candidate's id. -/
theorem pid_mem_addUnique (m : Mem) (acc : List Nat) (p : Nat) :
    ∃ q ∈ addUnique m acc p, m.pidOf q = m.pidOf p := by
  unfold addUnique
  split
  · next h =>
    rcases List.any_eq_true.mp h with ⟨q, hq, hbeq⟩
    simp only [beq_iff_eq] at hbeq
    exact ⟨q, hq, hbeq.symm⟩
  · exact ⟨p, List.mem_append_right _ (List.mem_singleton_self p), rfl⟩

/-- `addUnique` preserves distinctness of accumulated ids. -/
theorem nodup_addUnique (m : Mem) (acc : List Nat) (p : Nat)
    (h : (acc.map m.pidOf).Nodup) : ((addUnique m acc p).map m.pidOf).Nodup := by
  unfold addUnique
  split
  · exact h
  · next hfound =>
    have hnotin : m.pidOf p ∉ acc.map m.pidOf := by
      intro hmem
      rcases List.mem_map.mp hmem with ⟨q, hq, hpid⟩
      have hall : ∀ x ∈ acc, ¬(m.pidOf p = m.pidOf x) := by simpa using hfound
      exact hall q hq hpid.symm
    simp only [List.map_append, List.map_cons, List.map_nil]
    exact List.Nodup.append h (List.nodup_singleton _)
      (by simpa [List.disjoint_singleton] using hnotin)

/-- `addUniqueAll` only draws from the accumulator and the scanned list. -/
theorem mem_addUniqueAll (m : Mem) (l : List Nat) :
    ∀ acc, ∀ r ∈ addUniqueAll m acc l, r ∈ acc ∨ r ∈ l := by
  induction l with
  | nil => intro acc r hr; exact .inl hr
  | cons p rest ih =>
    intro acc r hr
    rcases ih (addUnique m acc p) r hr with h | h
    · rcases mem_addUnique m acc p r h with h1 | h1
      · exact .inl h1
      · exact .inr (h1 ▸ List.mem_cons_self _ _)
    · exact .inr (List.mem_cons_of_mem _ h)

/-- `addUniqueAll` keeps everything already accumulated. -/
theorem subset_addUniqueAll (m : Mem) (l : List Nat) :
    ∀ acc, ∀ r ∈ acc, r ∈ addUniqueAll m acc l := by
  induction l with
  | nil => intro acc r hr; exact hr
  | cons p rest ih =>
    intro acc r hr
    exact ih (addUnique m acc p) r (subset_addUnique m acc p r hr)

/-- Every scanned producer's id is represented after `addUniqueAll`. -/
theorem pid_complete_addUniqueAll (m : Mem) (l : List Nat) :
    ∀ acc, ∀ p ∈ l, ∃ q ∈ addUniqueAll m acc l, m.pidOf q = m.pidOf p := by
  induction l with
  | nil => intro acc p hp; cases hp
  | cons p0 rest ih =>
    intro acc p hp
    rcases List.mem_cons.mp hp with h | h
    · subst h
      rcases pid_mem_addUnique m acc p with ⟨q, hq, hpid⟩
      exact ⟨q, subset_addUniqueAll m rest _ q hq, hpid⟩
    · exact ih (addUnique m acc p0) p h

/-- `addUniqueAll` preserves distinctness of accumulated ids. -/
theorem nodup_addUniqueAll (m : Mem) (l : List Nat) :
    ∀ acc, (acc.map m.pidOf).Nodup → ((addUniqueAll m acc l).map m.pidOf).Nodup := by
  induction l with
  | nil => intro acc h; exact h
  | cons p rest ih =>
    intro acc h
    exact ih (addUnique m acc p) (nodup_addUnique m acc p h)

/-- The scan only returns accumulated producers or producers of matching
registrations. -/
theorem mem_findProducersScan (m : Mem) (category key subkey : String)
    (db : RegistrationDB) :
    ∀ acc, ∀ r ∈ findProducersScan m category key subkey db acc,
      r ∈ acc ∨ ∃ e ∈ db, e.1.isMatch category key subkey = true ∧ r ∈ e.2 := by
  induction db with
  | nil => intro acc r hr; exact .inl hr
  | cons e rest ih =>
    obtain ⟨k, ps⟩ := e
    intro acc r hr
    unfold findProducersScan at hr
    by_cases hm : k.isMatch category key subkey = true
    · rw [if_pos hm] at hr
      rcases ih (addUniqueAll m acc ps) r hr with h | h
      · rcases mem_addUniqueAll m ps acc r h with h1 | h1
        · exact .inl h1
        · exact .inr ⟨(k, ps), List.mem_cons_self _ _, hm, h1⟩
      · rcases h with ⟨e', he', hm', hr'⟩
        exact .inr ⟨e', List.mem_cons_of_mem _ he', hm', hr'⟩
    · rw [if_neg hm] at hr
      rcases ih acc r hr with h | h
      · exact .inl h
      · rcases h with ⟨e', he', hm', hr'⟩
        exact .inr ⟨e', List.mem_cons_of_mem _ he', hm', hr'⟩

/-- The scan keeps everything already accumulated. -/
theorem subset_findProducersScan (m : Mem) (category key subkey : String)
    (db : RegistrationDB) :
    ∀ acc, ∀ r ∈ acc, r ∈ findProducersScan m category key subkey db acc := by
  induction db with
  | nil => intro acc r hr; exact hr
  | cons e rest ih =>
    obtain ⟨k, ps⟩ := e
    intro acc r hr
    unfold findProducersScan
    by_cases hm : k.isMatch category key subkey = true
    · rw [if_pos hm]
      exact ih (addUniqueAll m acc ps) r (subset_addUniqueAll m ps acc r hr)
    · rw [if_neg hm]
      exact ih acc r hr

/-- The scan preserves distinctness of accumulated ids. -/
theorem nodup_findProducersScan (m : Mem) (category key subkey : String)
    (db : RegistrationDB) :
    ∀ acc, (acc.map m.pidOf).Nodup →
      ((findProducersScan m category key subkey db acc).map m.pidOf).Nodup := by
  induction db with
  | nil => intro acc h; exact h
  | cons e rest ih =>
    obtain ⟨k, ps⟩ := e
    intro acc h
    unfold findProducersScan
    by_cases hm : k.isMatch category key subkey = true
    · rw [if_pos hm]
      exact ih (addUniqueAll m acc ps) (nodup_addUniqueAll m ps acc h)
    · rw [if_neg hm]
      exact ih acc h

/-- Every producer of a matching registration has its id represented in
the scan's result. -/
theorem pid_complete_findProducersScan (m : Mem) (category key subkey : String)
    (db : RegistrationDB) :
    ∀ acc, ∀ e ∈ db, e.1.isMatch category key subkey = true →
      ∀ p ∈ e.2, ∃ q ∈ findProducersScan m category key subkey db acc,
        m.pidOf q = m.pidOf p := by
  induction db with
  | nil => intro acc e he; cases he
  | cons e0 rest ih =>
    obtain ⟨k, ps⟩ := e0
    intro acc e he hm p hp
    rcases List.mem_cons.mp he with h | h
    · subst h
      unfold findProducersScan
      rw [if_pos hm]
      rcases pid_complete_addUniqueAll m ps acc p hp with ⟨q, hq, hpid⟩
      exact ⟨q, subset_findProducersScan m category key subkey rest _ q hq, hpid⟩
    · unfold findProducersScan
      by_cases hm0 : k.isMatch category key subkey = true
      · rw [if_pos hm0]
        exact ih (addUniqueAll m acc ps) e h hm p hp
      · rw [if_neg hm0]
        exact ih acc e h hm p hp

/-- **C6.** `FindProducers(category, key, subkey)`: without a wildcard it
returns exactly the list stored under the key (empty if absent); with a
wildcard it returns producers drawn from the registrations matching the
query (category exact, `*` matching any key/subkey), every matching
registration's producer has its id represented, and the result never
contains two producers with the same id. -/
theorem findProducers_spec (m : Mem) (db : RegistrationDB) (category key subkey : String) :
    (needFilter key subkey = false →
      findProducers m db category key subkey = (lookupReg db ⟨category, key, subkey⟩).getD []) ∧
    (needFilter key subkey = true →
      ((findProducers m db category key subkey).map m.pidOf).Nodup ∧
      (∀ r ∈ findProducers m db category key subkey,
        ∃ e ∈ db, e.1.isMatch category key subkey = true ∧ r ∈ e.2) ∧
      (∀ e ∈ db, e.1.isMatch category key subkey = true →
        ∀ p ∈ e.2, ∃ q ∈ findProducers m db category key subkey,
          m.pidOf q = m.pidOf p)) := by
  constructor
  · intro h
    simp [findProducers, h]
  · intro h
    have hres : findProducers m db category key subkey =
        findProducersScan m category key subkey db [] := by
      simp [findProducers, h]
    rw [hres]
    refine ⟨nodup_findProducersScan m category key subkey db [] (by simp), ?_, ?_⟩
    · intro r hr
      rcases mem_findProducersScan m category key subkey db [] r hr with h1 | h1
      · cases h1
      · exact h1
    · intro e he hm p hp
      exact pid_complete_findProducersScan m category key subkey db [] e he hm p hp

/-- Witness for `findProducers_spec`: a wildcard scan over two topic
registrations whose producers share one id returns a duplicate-free
result. -/
theorem findProducers_spec_witness :
    ((findProducers (Mem.mk [Producer.mk 0 false 0, Producer.mk 0 false 0] [peerA])
      [(⟨"topic", "ta", ""⟩, [0]), (⟨"topic", "tb", ""⟩, [1])] "topic" "*" "").map
      (Mem.mk [Producer.mk 0 false 0, Producer.mk 0 false 0] [peerA]).pidOf).Nodup :=
  ((findProducers_spec (Mem.mk [Producer.mk 0 false 0, Producer.mk 0 false 0] [peerA])
    [(⟨"topic", "ta", ""⟩, [0]), (⟨"topic", "tb", ""⟩, [1])] "topic" "*" "").2
    (by decide)).1

/-!
## C7 / C9: UNREGISTER with a channel argument
-/

/-- The channel branch of UNREGISTER, as one equation: remove the
client's producer from the channel registration, then delete the
registration when nothing is left and the channel is `#ephemeral`. -/
theorem UNREGISTER_channel_db (st : St) (ρ : Nat) (params : List String)
    (topic channel : String)
    (hg : getTopicChan "UNREGISTER" params = .ok (topic, channel))
    (hc : channel ≠ "") :
    UNREGISTER st (some ρ) params =
      (.ok "OK",
        St.mk
          (if ((removeProducer st.mem st.db ⟨"channel", topic, channel⟩
                (st.mem.peerIdOf ρ)).1.2 == 0 && hasSuffix channel "#ephemeral") = true then
            removeRegistration (removeProducer st.mem st.db ⟨"channel", topic, channel⟩
              (st.mem.peerIdOf ρ)).2 ⟨"channel", topic, channel⟩
          else (removeProducer st.mem st.db ⟨"channel", topic, channel⟩
              (st.mem.peerIdOf ρ)).2)
          st.mem) := by
  simp only [UNREGISTER, hg]
  rw [if_pos hc]

/-- **C7.** For an identified client, `UNREGISTER topic channel` (with a
valid, explicit channel) answers `OK`; afterwards no producer with the
client's id is listed under `("channel", topic, channel)`; if the
channel is `#ephemeral`-suffixed and no producers remain after the
removal, the registration itself is gone from the store; and a
non-ephemeral channel registration is retained with exactly the cleaned
(possibly empty) producer list. -/
theorem unregister_channel_spec (st : St) (ρ : Nat) (params : List String)
    (topic channel : String)
    (hg : getTopicChan "UNREGISTER" params = .ok (topic, channel))
    (hc : channel ≠ "")
    (hwf : WFdb st.db) :
    ((UNREGISTER st (some ρ) params).1 = .ok "OK") ∧
    (∀ ps, lookupReg ((UNREGISTER st (some ρ) params).2).db
        ⟨"channel", topic, channel⟩ = some ps →
      ∀ r ∈ ps, ¬(st.mem.pidOf r = st.mem.peerIdOf ρ)) ∧
    (hasSuffix channel "#ephemeral" = true →
      ((lookupReg st.db ⟨"channel", topic, channel⟩).getD []).filter
        (fun q => !(st.mem.pidOf q == st.mem.peerIdOf ρ)) = [] →
      lookupReg ((UNREGISTER st (some ρ) params).2).db
        ⟨"channel", topic, channel⟩ = none) ∧
    (hasSuffix channel "#ephemeral" = false →
      ∀ ps, lookupReg st.db ⟨"channel", topic, channel⟩ = some ps →
        lookupReg ((UNREGISTER st (some ρ) params).2).db
            ⟨"channel", topic, channel⟩ =
          some (ps.filter (fun q => !(st.mem.pidOf q == st.mem.peerIdOf ρ)))) := by
  have hok : (UNREGISTER st (some ρ) params).1 = .ok "OK" := by
    rw [UNREGISTER_channel_db st ρ params topic channel hg hc]
  rcases hlk : lookupReg st.db ⟨"channel", topic, channel⟩ with _ | ps
  · have hrp : removeProducer st.mem st.db ⟨"channel", topic, channel⟩
        (st.mem.peerIdOf ρ) = ((false, 0), st.db) := by
      simp [removeProducer, hlk]
    rcases hs : hasSuffix channel "#ephemeral" with _ | _
    · have hdb : ((UNREGISTER st (some ρ) params).2).db = st.db := by
        rw [UNREGISTER_channel_db st ρ params topic channel hg hc, hrp]
        simp [hs]
      refine ⟨hok, ?_, ?_, ?_⟩
      · intro ps hps
        rw [hdb, hlk] at hps
        cases hps
      · intro hs' _
        cases hs'
      · intro _ ps hps
        cases hps
    · have hdb : ((UNREGISTER st (some ρ) params).2).db =
          eraseReg st.db ⟨"channel", topic, channel⟩ := by
        rw [UNREGISTER_channel_db st ρ params topic channel hg hc, hrp]
        simp [hs, removeRegistration]
      refine ⟨hok, ?_, ?_, ?_⟩
      · intro ps hps
        rw [hdb, lookupReg_eraseReg_self st.db _ hwf] at hps
        cases hps
      · intro _ _
        rw [hdb]
        exact lookupReg_eraseReg_self st.db _ hwf
      · intro hs'
        cases hs'
  · have hrp : removeProducer st.mem st.db ⟨"channel", topic, channel⟩
        (st.mem.peerIdOf ρ) =
        ((ps.any (fun q => st.mem.pidOf q == st.mem.peerIdOf ρ),
          (ps.filter (fun q => !(st.mem.pidOf q == st.mem.peerIdOf ρ))).length),
         setReg st.db ⟨"channel", topic, channel⟩
           (ps.filter (fun q => !(st.mem.pidOf q == st.mem.peerIdOf ρ)))) := by
      simp [removeProducer, hlk, cleanProducers_eq]
    have hwf2 : WFdb (setReg st.db ⟨"channel", topic, channel⟩
        (ps.filter (fun q => !(st.mem.pidOf q == st.mem.peerIdOf ρ)))) :=
      WFdb_setReg st.db _ _ hwf
    have hmemf : ∀ r ∈ ps.filter (fun q => !(st.mem.pidOf q == st.mem.peerIdOf ρ)),
        ¬(st.mem.pidOf r = st.mem.peerIdOf ρ) := by
      intro r hr
      have h2 := (List.mem_filter.mp hr).2
      simpa using h2
    rcases hs : hasSuffix channel "#ephemeral" with _ | _
    · have hdb : ((UNREGISTER st (some ρ) params).2).db =
          setReg st.db ⟨"channel", topic, channel⟩
            (ps.filter (fun q => !(st.mem.pidOf q == st.mem.peerIdOf ρ))) := by
        rw [UNREGISTER_channel_db st ρ params topic channel hg hc, hrp]
        simp [hs]
      refine ⟨hok, ?_, ?_, ?_⟩
      · intro ps' hps'
        rw [hdb, lookupReg_setReg_self] at hps'
        cases hps'
        exact hmemf
      · intro hs' _
        cases hs'
      · intro _ ps0 hps0
        cases hps0
        rw [hdb]
        exact lookupReg_setReg_self _ _ _
    · by_cases hnil : ps.filter (fun q => !(st.mem.pidOf q == st.mem.peerIdOf ρ)) = []
      · have hdb : ((UNREGISTER st (some ρ) params).2).db =
            eraseReg (setReg st.db ⟨"channel", topic, channel⟩
              (ps.filter (fun q => !(st.mem.pidOf q == st.mem.peerIdOf ρ))))
              ⟨"channel", topic, channel⟩ := by
          rw [UNREGISTER_channel_db st ρ params topic channel hg hc, hrp]
          simp [hs, hnil, removeRegistration]
        refine ⟨hok, ?_, ?_, ?_⟩
        · intro ps' hps'
          rw [hdb, lookupReg_eraseReg_self _ _ hwf2] at hps'
          cases hps'
        · intro _ _
          rw [hdb]
          exact lookupReg_eraseReg_self _ _ hwf2
        · intro hs'
          cases hs'
      · have hlen : ((ps.filter (fun q =>
            !(st.mem.pidOf q == st.mem.peerIdOf ρ))).length == 0) = false := by
          simpa [List.length_eq_zero] using hnil
        have hdb : ((UNREGISTER st (some ρ) params).2).db =
            setReg st.db ⟨"channel", topic, channel⟩
              (ps.filter (fun q => !(st.mem.pidOf q == st.mem.peerIdOf ρ))) := by
          rw [UNREGISTER_channel_db st ρ params topic channel hg hc, hrp]
          simp [hlen]
        refine ⟨hok, ?_, ?_, ?_⟩
        · intro ps' hps'
          rw [hdb, lookupReg_setReg_self] at hps'
          cases hps'
          exact hmemf
        · intro _ hclean
          simp only [Option.getD_some] at hclean
          exact absurd hclean hnil
        · intro hs'
          cases hs'

/-- Witness for `unregister_channel_spec`: unregistering the only
producer of `c#ephemeral` deletes the registration. -/
theorem unregister_channel_spec_witness :
    lookupReg ((UNREGISTER (St.mk [(⟨"channel", "t", "c#ephemeral"⟩, [0])]
        (Mem.mk [Producer.mk 0 false 0] [peerA])) (some 0) ["t", "c#ephemeral"]).2).db
      ⟨"channel", "t", "c#ephemeral"⟩ = none :=
  (unregister_channel_spec (St.mk [(⟨"channel", "t", "c#ephemeral"⟩, [0])]
      (Mem.mk [Producer.mk 0 false 0] [peerA])) 0 ["t", "c#ephemeral"] "t" "c#ephemeral"
    (by decide) (by decide) (by unfold WFdb; decide)).2.2.1 (by decide) (by decide)

/-- **C9.** An `#ephemeral` channel registration that exists with an
*empty* producer list (e.g. created via `POST /channel/create`) is
deleted by any identified client's `UNREGISTER topic channel`, even
though that client never was a producer of it: `RemoveProducer` reports
zero remaining producers regardless of whether anything was removed, so
the ephemeral cleanup fires. -/
theorem unregister_empty_ephemeral_deletes (st : St) (ρ : Nat) (params : List String)
    (topic channel : String)
    (hg : getTopicChan "UNREGISTER" params = .ok (topic, channel))
    (hc : channel ≠ "")
    (hs : hasSuffix channel "#ephemeral" = true)
    (h0 : lookupReg st.db ⟨"channel", topic, channel⟩ = some [])
    (hwf : WFdb st.db) :
    lookupReg ((UNREGISTER st (some ρ) params).2).db
      ⟨"channel", topic, channel⟩ = none := by
  rw [UNREGISTER_channel_db st ρ params topic channel hg hc]
  have hrp : removeProducer st.mem st.db ⟨"channel", topic, channel⟩
      (st.mem.peerIdOf ρ) = ((false, 0), setReg st.db ⟨"channel", topic, channel⟩ []) := by
    simp [removeProducer, h0, cleanProducers_eq]
  rw [hrp]
  simp only [hs, Bool.and_true, removeRegistration]
  exact lookupReg_eraseReg_self _ _ (WFdb_setReg st.db _ _ hwf)

/-- Witness for `unregister_empty_ephemeral_deletes`: in `exEphSt` (an
empty `c#ephemeral` registration and a client that never registered for
it), the UNREGISTER deletes the registration. -/
theorem unregister_empty_ephemeral_deletes_witness :
    lookupReg ((UNREGISTER exEphSt (some 0) ["t", "c#ephemeral"]).2).db
      ⟨"channel", "t", "c#ephemeral"⟩ = none :=
  unregister_empty_ephemeral_deletes exEphSt 0 ["t", "c#ephemeral"] "t" "c#ephemeral"
    (by decide) (by decide) (by decide) (by decide) (by unfold WFdb; decide)

/-!
## C2: PeerInfo is shared across a connection's registrations, the
Producer wrappers are not
-/

/-- The reference returned by an allocation. -/
theorem alloc_ref (m : Mem) (p : Producer) : (m.alloc p).2 = m.producers.length := rfl

/-- Allocation leaves the peer heap alone. -/
theorem alloc_peers (m : Mem) (p : Producer) : (m.alloc p).1.peers = m.peers := rfl

/-- Allocation grows the producer heap by one cell. -/
theorem alloc_producers_length (m : Mem) (p : Producer) :
    (m.alloc p).1.producers.length = m.producers.length + 1 := by
  simp [Mem.alloc]

/-- The fresh cell holds the allocated record. -/
theorem prodAt_alloc_self (m : Mem) (p : Producer) :
    (m.alloc p).1.prodAt m.producers.length = some p := by
  simp [Mem.alloc, Mem.prodAt, List.get?_concat_length]

/-- Old cells are untouched by an allocation. -/
theorem prodAt_alloc_lt (m : Mem) (p : Producer) (q : Nat) (h : q < m.producers.length) :
    (m.alloc p).1.prodAt q = m.prodAt q := by
  simp only [Mem.alloc, Mem.prodAt]
  exact List.get?_append h

/-- The id read through the fresh cell is the id of the peer it points at. -/
theorem pidOf_alloc_self (m : Mem) (p : Producer) :
    (m.alloc p).1.pidOf m.producers.length =
      ((m.peers.get? p.peerInfo).getD defaultPeer).id := by
  simp [Mem.pidOf, Mem.peerOf, prodAt_alloc_self, alloc_peers]

/-- Ids read through old cells are untouched by an allocation. -/
theorem pidOf_alloc_lt (m : Mem) (p : Producer) (q : Nat) (h : q < m.producers.length) :
    (m.alloc p).1.pidOf q = m.pidOf q := by
  simp only [Mem.pidOf, Mem.peerOf, prodAt_alloc_lt m p q h, alloc_peers]

/-- Updating one heap cell leaves every other cell alone. -/
theorem updAt_get_ne {α : Type} (l : List α) (r n : Nat) (f : α → α) (h : n ≠ r) :
    (updAt l r f).get? n = l.get? n := by
  induction l generalizing r n with
  | nil => rfl
  | cons x rest ih =>
    cases r with
    | zero =>
      cases n with
      | zero => exact absurd rfl h
      | succ n => rfl
    | succ r =>
      cases n with
      | zero => rfl
      | succ n => simpa [updAt] using ih r n (fun hh => h (by rw [hh]))

/-- Reading back an updated heap cell. -/
theorem updAt_get_self {α : Type} (l : List α) (r : Nat) (f : α → α) :
    (updAt l r f).get? r = (l.get? r).map f := by
  induction l generalizing r with
  | nil => cases r <;> rfl
  | cons x rest ih =>
    cases r with
    | zero => rfl
    | succ r => simpa [updAt] using ih r

/-- `AddProducer` when no producer under the key carries the candidate's
id: the candidate is appended. -/
theorem addProducer_not_found (m : Mem) (db : RegistrationDB) (k : Registration) (p : Nat)
    (h : ((lookupReg db k).getD []).any
      (fun producer => m.pidOf producer == m.pidOf p) = false) :
    addProducer m db k p = (true, setReg db k (((lookupReg db k).getD []) ++ [p])) := by
  simp [addProducer, h]

/-- The channel-and-topic branch of REGISTER as one equation: allocate a
fresh producer record for the channel registration, then another fresh
one for the topic registration. -/
theorem REGISTER_channel_eq (st : St) (ρ : Nat) (params : List String)
    (topic channel : String)
    (hg : getTopicChan "REGISTER" params = .ok (topic, channel))
    (hc : channel ≠ "") :
    REGISTER st (some ρ) params =
      (.ok "OK",
        St.mk
          (addProducer ((st.mem.alloc ⟨ρ, false, 0⟩).1.alloc ⟨ρ, false, 0⟩).1
            (addProducer (st.mem.alloc ⟨ρ, false, 0⟩).1 st.db
              ⟨"channel", topic, channel⟩ (st.mem.alloc ⟨ρ, false, 0⟩).2).2
            ⟨"topic", topic, ""⟩ ((st.mem.alloc ⟨ρ, false, 0⟩).1.alloc ⟨ρ, false, 0⟩).2).2
          ((st.mem.alloc ⟨ρ, false, 0⟩).1.alloc ⟨ρ, false, 0⟩).1) := by
  simp only [REGISTER, hg]
  rw [if_pos hc]

/-- **C2 (amended).** All registrations that refer to one producer
connection share that connection's `PeerInfo` *by reference* — the two
producers added by `REGISTER topic channel` both hold the client's peer
reference, and the peer heap is untouched, so a `last_update` write
through the shared `PeerInfo` is visible via every registration.  But
each `AddProducer` call receives its own freshly allocated `Producer`
record: the channel registration holds cell `n` and the topic
registration cell `n+1`, so `tombstoned`/`tombstoned_at` set through the
producer found under `("topic",topic,"")` (as `/topic/tombstone` does)
are visible only through that registration's own producer cell, not
through the channel registration's. -/
theorem register_shares_peer_not_producer (st : St) (ρ : Nat) (params : List String)
    (topic channel : String) (now : Int)
    (hg : getTopicChan "REGISTER" params = .ok (topic, channel))
    (hc : channel ≠ "")
    (hch : ∀ q ∈ (lookupReg st.db ⟨"channel", topic, channel⟩).getD [],
      q < st.mem.producers.length ∧ ¬(st.mem.pidOf q = st.mem.peerIdOf ρ))
    (htp : ∀ q ∈ (lookupReg st.db ⟨"topic", topic, ""⟩).getD [],
      q < st.mem.producers.length ∧ ¬(st.mem.pidOf q = st.mem.peerIdOf ρ)) :
    (REGISTER st (some ρ) params).1 = .ok "OK" ∧
    lookupReg ((REGISTER st (some ρ) params).2).db ⟨"channel", topic, channel⟩ =
      some ((lookupReg st.db ⟨"channel", topic, channel⟩).getD []
        ++ [st.mem.producers.length]) ∧
    lookupReg ((REGISTER st (some ρ) params).2).db ⟨"topic", topic, ""⟩ =
      some ((lookupReg st.db ⟨"topic", topic, ""⟩).getD []
        ++ [st.mem.producers.length + 1]) ∧
    ((REGISTER st (some ρ) params).2).mem.prodAt st.mem.producers.length =
      some (Producer.mk ρ false 0) ∧
    ((REGISTER st (some ρ) params).2).mem.prodAt (st.mem.producers.length + 1) =
      some (Producer.mk ρ false 0) ∧
    ((REGISTER st (some ρ) params).2).mem.peers = st.mem.peers ∧
    ((REGISTER st (some ρ) params).2).mem.peerRefOf st.mem.producers.length =
      ((REGISTER st (some ρ) params).2).mem.peerRefOf (st.mem.producers.length + 1) ∧
    (((REGISTER st (some ρ) params).2).mem.tombstone
        (st.mem.producers.length + 1) now).prodAt st.mem.producers.length =
      some (Producer.mk ρ false 0) ∧
    (((REGISTER st (some ρ) params).2).mem.tombstone
        (st.mem.producers.length + 1) now).tombstonedOf
        (st.mem.producers.length + 1) = true := by
  have hkne : (⟨"topic", topic, ""⟩ : Registration) ≠ ⟨"channel", topic, channel⟩ := by
    intro h
    have h2 : "topic" = "channel" := congrArg Registration.category h
    exact absurd h2 (by decide)
  have hkne' : (⟨"channel", topic, channel⟩ : Registration) ≠ ⟨"topic", topic, ""⟩ :=
    fun h => hkne h.symm
  have e1 : (st.mem.alloc ⟨ρ, false, 0⟩).1.pidOf st.mem.producers.length =
      st.mem.peerIdOf ρ := by
    rw [pidOf_alloc_self]
    rfl
  have hfound1 : ((lookupReg st.db ⟨"channel", topic, channel⟩).getD []).any
      (fun q => (st.mem.alloc ⟨ρ, false, 0⟩).1.pidOf q ==
        (st.mem.alloc ⟨ρ, false, 0⟩).1.pidOf st.mem.producers.length) = false := by
    apply List.any_eq_false.mpr
    intro q hq
    have h1 := hch q hq
    rw [pidOf_alloc_lt st.mem _ q h1.1, e1]
    simpa using h1.2
  have hadd1 : addProducer (st.mem.alloc ⟨ρ, false, 0⟩).1 st.db
      ⟨"channel", topic, channel⟩ st.mem.producers.length =
      (true, setReg st.db ⟨"channel", topic, channel⟩
        (((lookupReg st.db ⟨"channel", topic, channel⟩).getD [])
          ++ [st.mem.producers.length])) :=
    addProducer_not_found _ _ _ _ hfound1
  have hlen1 : (st.mem.alloc ⟨ρ, false, 0⟩).1.producers.length =
      st.mem.producers.length + 1 := alloc_producers_length st.mem _
  have e2 : ((st.mem.alloc ⟨ρ, false, 0⟩).1.alloc ⟨ρ, false, 0⟩).1.pidOf
      (st.mem.producers.length + 1) = st.mem.peerIdOf ρ := by
    rw [← hlen1, pidOf_alloc_self, alloc_peers]
    rfl
  have hL2 : lookupReg (setReg st.db ⟨"channel", topic, channel⟩
      (((lookupReg st.db ⟨"channel", topic, channel⟩).getD [])
        ++ [st.mem.producers.length])) ⟨"topic", topic, ""⟩ =
      lookupReg st.db ⟨"topic", topic, ""⟩ :=
    lookupReg_setReg_ne st.db _ _ _ hkne
  have hfound2 : ((lookupReg (setReg st.db ⟨"channel", topic, channel⟩
      (((lookupReg st.db ⟨"channel", topic, channel⟩).getD [])
        ++ [st.mem.producers.length])) ⟨"topic", topic, ""⟩).getD []).any
      (fun q => ((st.mem.alloc ⟨ρ, false, 0⟩).1.alloc ⟨ρ, false, 0⟩).1.pidOf q ==
        ((st.mem.alloc ⟨ρ, false, 0⟩).1.alloc ⟨ρ, false, 0⟩).1.pidOf
          (st.mem.producers.length + 1)) = false := by
    rw [hL2]
    apply List.any_eq_false.mpr
    intro q hq
    have h1 := htp q hq
    have hq1 : q < (st.mem.alloc ⟨ρ, false, 0⟩).1.producers.length := by
      rw [hlen1]; omega
    rw [pidOf_alloc_lt _ _ q hq1, pidOf_alloc_lt st.mem _ q h1.1, e2]
    simpa using h1.2
  have hadd2 : addProducer ((st.mem.alloc ⟨ρ, false, 0⟩).1.alloc ⟨ρ, false, 0⟩).1
      (setReg st.db ⟨"channel", topic, channel⟩
        (((lookupReg st.db ⟨"channel", topic, channel⟩).getD [])
          ++ [st.mem.producers.length])) ⟨"topic", topic, ""⟩
      (st.mem.producers.length + 1) =
      (true, setReg (setReg st.db ⟨"channel", topic, channel⟩
        (((lookupReg st.db ⟨"channel", topic, channel⟩).getD [])
          ++ [st.mem.producers.length])) ⟨"topic", topic, ""⟩
        (((lookupReg st.db ⟨"topic", topic, ""⟩).getD [])
          ++ [st.mem.producers.length + 1])) := by
    have := addProducer_not_found ((st.mem.alloc ⟨ρ, false, 0⟩).1.alloc ⟨ρ, false, 0⟩).1
      (setReg st.db ⟨"channel", topic, channel⟩
        (((lookupReg st.db ⟨"channel", topic, channel⟩).getD [])
          ++ [st.mem.producers.length])) ⟨"topic", topic, ""⟩
      (st.mem.producers.length + 1) hfound2
    rw [this, hL2]
  have hreg := REGISTER_channel_eq st ρ params topic channel hg hc
  have hreg2 : REGISTER st (some ρ) params =
      (.ok "OK",
        St.mk
          (setReg (setReg st.db ⟨"channel", topic, channel⟩
            (((lookupReg st.db ⟨"channel", topic, channel⟩).getD [])
              ++ [st.mem.producers.length])) ⟨"topic", topic, ""⟩
            (((lookupReg st.db ⟨"topic", topic, ""⟩).getD [])
              ++ [st.mem.producers.length + 1]))
          ((st.mem.alloc ⟨ρ, false, 0⟩).1.alloc ⟨ρ, false, 0⟩).1) := by
    rw [hreg]
    simp only [alloc_ref, hlen1, hadd1, hadd2]
  rw [hreg2]
  have hr1lt : st.mem.producers.length <
      (st.mem.alloc ⟨ρ, false, 0⟩).1.producers.length := by
    rw [hlen1]; omega
  have hp1 : ((st.mem.alloc ⟨ρ, false, 0⟩).1.alloc ⟨ρ, false, 0⟩).1.prodAt
      st.mem.producers.length = some (Producer.mk ρ false 0) := by
    rw [prodAt_alloc_lt _ _ _ hr1lt, prodAt_alloc_self]
  have hp2 : ((st.mem.alloc ⟨ρ, false, 0⟩).1.alloc ⟨ρ, false, 0⟩).1.prodAt
      (st.mem.producers.length + 1) = some (Producer.mk ρ false 0) := by
    rw [← hlen1, prodAt_alloc_self]
  refine ⟨rfl, ?_, ?_, hp1, hp2, rfl, ?_, ?_, ?_⟩
  · rw [lookupReg_setReg_ne _ _ _ _ hkne', lookupReg_setReg_self]
  · rw [lookupReg_setReg_self]
  · simp only [Mem.peerRefOf, hp1, hp2]
  · simp only [Mem.tombstone, Mem.prodAt]
    rw [updAt_get_ne _ _ _ _ (by omega)]
    exact hp1
  · have hp2' : ((st.mem.alloc ⟨ρ, false, 0⟩).1.alloc ⟨ρ, false, 0⟩).1.producers.get?
        (st.mem.producers.length + 1) = some (Producer.mk ρ false 0) := hp2
    simp only [Mem.tombstonedOf, Mem.tombstone, Mem.prodAt]
    rw [updAt_get_self, hp2']
    rfl

/-- Witness for `register_shares_peer_not_producer`: from `exSt0`,
`REGISTER t c` stores fresh cell 0 under the channel key and fresh cell
1 under the topic key. -/
theorem register_shares_peer_not_producer_witness :
    lookupReg ((REGISTER exSt0 (some 0) ["t", "c"]).2).db ⟨"channel", "t", "c"⟩ =
      some [0] ∧
    lookupReg ((REGISTER exSt0 (some 0) ["t", "c"]).2).db ⟨"topic", "t", ""⟩ =
      some [1] := by
  have h := register_shares_peer_not_producer exSt0 0 ["t", "c"] "t" "c" 7
    (by decide) (by decide) (by decide) (by decide)
  constructor
  · rw [h.2.1]; decide
  · rw [h.2.2.1]; decide

/-!
## C8: doLookup for a non-wildcard topic name
-/

/-- **C8 (amended).** For a topic name other than the literal `*`,
`GET /lookup?topic=T` answers 404 `TOPIC_NOT_FOUND` exactly when the key
`("topic",T,"")` is absent from the store; when the key is present —
even with an empty producer list — it answers 200 with the SubKeys of
the `("channel",T,*)` registrations as channels and the PeerInfo of
`FilterByActive(inactivityTimeout, tombstoneLifetime)` applied to the
stored producer list.  (For `T = "*"` the lookup treats the name as a
wildcard instead; see the counterexample.) -/
theorem doLookup_spec (st : St) (topicName : String) (now it tl : Int)
    (hT : topicName ≠ "*") :
    (lookupReg st.db ⟨"topic", topicName, ""⟩ = none →
      doLookup st topicName now it tl = .error ⟨404, "TOPIC_NOT_FOUND"⟩) ∧
    (∀ ps, lookupReg st.db ⟨"topic", topicName, ""⟩ = some ps →
      doLookup st topicName now it tl =
        .ok ⟨regSubKeys (findRegistrations st.db "channel" topicName "*"),
             producersPeerInfo st.mem (filterByActive st.mem now it tl ps)⟩) := by
  have hnf : needFilter topicName "" = false := by
    simp [needFilter, hT]
  constructor
  · intro h
    simp [doLookup, findRegistrations, hnf, h]
  · intro ps h
    simp [doLookup, findRegistrations, findProducers, hnf, h]

/-- Witness for `doLookup_spec`: topic `a` is registered with no
producers, and the lookup still answers 200 with empty lists. -/
theorem doLookup_spec_witness :
    doLookup exLookupSt "a" 0 100 100 = .ok ⟨[], []⟩ := by
  have h := (doLookup_spec exLookupSt "a" 0 100 100 (by decide)).2 [] (by decide)
  rw [h]; decide
